import Mathlib

/-!
Verification of the fitconvert repository (FIT telemetry converter) against its
specification.  The definitions below are a shallow embedding of the C++
sources: the current generation of the converter (parser.cpp, the `FitData`
struct and the `Convert` driver), the legacy generation (the `Record` struct
and `FitParser`), the numeric-to-text renderers, the `Time` decomposition, and
`DataSourceMemory` from datasource.cpp.  Machine integers are modelled as
`Int`/`Nat`; 64-bit signed arithmetic in the source never relies on wrapping
(signed overflow would be undefined behaviour in C++), so values are carried
exactly, while unsigned casts that can truncate are modelled with explicit
`% 2 ^ w`.  C++ signed integer division truncates toward zero and is modelled
by `Int.tdiv`.
-/

namespace FitConv

/-! ### Field kinds (enum DataType, parser.cpp lines 1515-1535)

The eleven field kinds, used as indices 0..10 into the value array, and the
bitmask `0x01 << type` from DataTypeToMask. -/

/-- Number of field kinds (DataType::kTypeMax). -/
def kTypeMax : Nat := 11

/-- DataType::kTypeSpeed. -/
def kTypeSpeed : Fin 11 := 0

/-- DataType::kTypeDistance. -/
def kTypeDistance : Fin 11 := 1

/-- DataType::kTypeHeartRate. -/
def kTypeHeartRate : Fin 11 := 2

/-- DataType::kTypeAltitude. -/
def kTypeAltitude : Fin 11 := 3

/-- DataType::kTypePower. -/
def kTypePower : Fin 11 := 4

/-- DataType::kTypeCadence. -/
def kTypeCadence : Fin 11 := 5

/-- DataType::kTypeTemperature. -/
def kTypeTemperature : Fin 11 := 6

/-- DataType::kTypeTimeStamp. -/
def kTypeTimeStamp : Fin 11 := 7

/-- DataType::kTypeLatitude. -/
def kTypeLatitude : Fin 11 := 8

/-- DataType::kTypeLongitude. -/
def kTypeLongitude : Fin 11 := 9

/-- DataType::kTypeTimeStampNext. -/
def kTypeTimeStampNext : Fin 11 := 10

/-- DataTypeToMask: 0x01 << type (the shift never reaches 32 bits, so no
uint32 wrap occurs). -/
def typeMask (t : Fin 11) : Nat := 2 ^ (t : Nat)

/-! ### FitData (parser.cpp lines 1725-1991, current generation)

Value array of `int64_t values[kTypeMax]` plus the `uint32_t available_types`
presence mask.  A freshly constructed FitData is zeroed (memset + zero mask).
-/

/-- FitData: eleven int64 value slots and the available_types bitmask. -/
structure FitData where
  values : Fin 11 → Int
  availableTypes : Nat
  deriving Repr

/-- Default-constructed FitData: memset values to zero, mask zero. -/
def fitZero : FitData := ⟨fun _ => 0, 0⟩

/-- FitData::operator- (parser.cpp lines 1937-1944): subtract every slot
uniformly; the result mask is the bitwise OR of the two masks
(`available_types | right_value.available_types`). -/
def fitSub (av bv : FitData) : FitData :=
  ⟨fun i => av.values i - bv.values i, av.availableTypes ||| bv.availableTypes⟩

/-- FitData::operator+ (parser.cpp lines 1946-1953): add every slot uniformly;
the result mask is the bitwise OR of the two masks. -/
def fitAdd (av bv : FitData) : FitData :=
  ⟨fun i => av.values i + bv.values i, av.availableTypes ||| bv.availableTypes⟩

/-- FitData::operator/ (parser.cpp lines 1955-1962): divide every slot by the
scalar (C++ int64 division, truncation toward zero); the mask is the left
operand's mask unchanged. -/
def fitDivScalar (av : FitData) (divider : Int) : FitData :=
  ⟨fun i => Int.tdiv (av.values i) divider, av.availableTypes⟩

/-- FitData::SetValue (parser.cpp line 1964): overwrite one value slot without
touching the presence mask. -/
def setValue (s : FitData) (t : Fin 11) (v : Int) : FitData :=
  ⟨Function.update s.values t v, s.availableTypes⟩

/-! ### Record (parser.cpp lines 129-159, legacy generation)

The 2022-era sample struct; its operators AND the `Valid` masks together. -/

/-- Legacy Record: value slots plus the Valid bitmask. -/
structure Record where
  values : Fin 11 → Int
  valid : Nat
  deriving Repr

/-- Legacy operator- on Record (parser.cpp lines 134-141): slots subtracted
uniformly, masks ANDed (`left_value.Valid & right_value.Valid`). -/
def recordSub (av bv : Record) : Record :=
  ⟨fun i => av.values i - bv.values i, av.valid &&& bv.valid⟩

/-- Legacy operator+ on Record (parser.cpp lines 143-150): slots added
uniformly, masks ANDed. -/
def recordAdd (av bv : Record) : Record :=
  ⟨fun i => av.values i + bv.values i, av.valid &&& bv.valid⟩

/-- Legacy operator/ on Record (parser.cpp lines 152-159): slots divided by
the scalar, mask of the left operand preserved. -/
def recordDivScalar (av : Record) (divider : Int) : Record :=
  ⟨fun i => Int.tdiv (av.values i) divider, av.valid⟩

/-! ### Smoothing emission (Convert, parser.cpp lines 2139-2154 and
2163-2168)

With smoothness n > 0 the driver processes each consecutive accepted pair
(a, b) as follows (a sits in new_fit_data_ptr after the swap, b in
previous_fot_data_ptr, and new_fit_from_ms = b's remapped timestamp):
  smoothed_diff_ms = (b.timestamp - a.timestamp) / (n + 1)        (line 2140)
  a.timestampNext  = a.timestamp + smoothed_diff_ms; Export(a)    (2141-2142)
  diff = (b - a) / (n + 1)   -- a already carries the overwritten
                             -- timestampNext slot                (2144-2145)
  n times: a = a + diff;
           a.timestampNext = a.timestamp + smoothed_diff_ms;
           Export(a)                                              (2146-2150)
b itself is the next sample emitted: it is exported at the head of the
following pair's block, or by the finalization block for the last record
with timestampNext = timestamp + 1000 (lines 2163-2168); either way its
timestampNext slot is overwritten first.  `convertEmit` folds this over the
whole list of accepted (remapped) records for the smoothness > 0 path. -/

/-- SetValue(kTypeTimeStampNext, GetValue(kTypeTimeStamp) + dms): the
timestamp-next fixup performed on every sample right before it is
exported. -/
def setTsNext (s : FitData) (dms : Int) : FitData :=
  setValue s kTypeTimeStampNext (s.values kTypeTimeStamp + dms)

/-- smoothed_diff_ms (parser.cpp line 2140): the constant per-step time span
(b.timestamp - a.timestamp) / (n + 1), int64 division truncating toward
zero. -/
def smoothedDiffMs (av bv : FitData) (n : Nat) : Int :=
  Int.tdiv (bv.values kTypeTimeStamp - av.values kTypeTimeStamp) ((n : Int) + 1)

/-- Per-field smoothing step (parser.cpp lines 2144-2145):
`diff = *previous_fot_data_ptr - *new_fit_data_ptr; diff = diff / (smoothness + 1)`.
previous_fot_data_ptr holds the current record b; new_fit_data_ptr holds the
prior record a whose timestamp-next slot was already overwritten at line
2141, so the subtraction sees that overwritten slot. -/
def smoothStep (av bv : FitData) (n : Nat) : FitData :=
  fitDivScalar (fitSub bv (setTsNext av (smoothedDiffMs av bv n))) ((n : Int) + 1)

/-- One iteration of the smoothing loop body before Export (parser.cpp
lines 2147-2148): accumulate diff, then overwrite the timestamp-next slot
with the sample's own timestamp plus the constant span. -/
def smoothAcc (d : FitData) (dms : Int) (x : FitData) : FitData :=
  setTsNext (fitAdd x d) dms

/-- The n synthetic samples emitted by the loop at parser.cpp lines
2146-2150, in emission order. -/
def synthetics (d : FitData) (dms : Int) : FitData → Nat → List FitData
  | _, 0 => []
  | running, k + 1 =>
      let next := smoothAcc d dms running
      next :: synthetics d dms next k

/-- The samples exported while processing the pair (a, b) with smoothness
n > 0 (parser.cpp lines 2139-2150): a with its timestamp-next overwritten,
followed by the n synthetics. -/
def emitBlock (av bv : FitData) (n : Nat) : List FitData :=
  let dms := smoothedDiffMs av bv n
  let a1 := setTsNext av dms
  a1 :: synthetics (smoothStep av bv n) dms a1 n

/-- The full emission of the smoothness > 0 path over the accepted
(remapped) records: one block per consecutive pair, and the last record
emitted by the finalization code with timestampNext = timestamp + 1000
(parser.cpp lines 2163-2168). -/
def convertEmit (n : Nat) : List FitData → List FitData
  | [] => []
  | [bv] => [setTsNext bv 1000]
  | av :: bv :: rest => emitBlock av bv n ++ convertEmit n (bv :: rest)

theorem setTsNext_values_ne (s : FitData) (dms : Int) (i : Fin 11)
    (hi : i ≠ kTypeTimeStampNext) :
    (setTsNext s dms).values i = s.values i :=
  Function.update_noteq hi _ s.values

theorem setTsNext_tsNext (s : FitData) (dms : Int) :
    (setTsNext s dms).values kTypeTimeStampNext =
      s.values kTypeTimeStamp + dms := by
  simp [setTsNext, setValue]

theorem setTsNext_mask (s : FitData) (dms : Int) :
    (setTsNext s dms).availableTypes = s.availableTypes := rfl

/-- Closed form for the smoothing loop: the running sample after k
iterations of accumulate-and-fixup starting from x. -/
def accTimes (d : FitData) (dms : Int) (x : FitData) : Nat → FitData
  | 0 => x
  | k + 1 => smoothAcc d dms (accTimes d dms x k)

theorem accTimes_shift (d : FitData) (dms : Int) (x : FitData) (k : Nat) :
    accTimes d dms (smoothAcc d dms x) k = accTimes d dms x (k + 1) := by
  induction k with
  | zero => simp [accTimes]
  | succ m ihm =>
      simp only [accTimes] at ihm ⊢
      rw [ihm]

theorem synthetics_eq_map (d : FitData) (dms : Int) (x : FitData) (n : Nat) :
    synthetics d dms x n = (List.range n).map (fun k => accTimes d dms x (k + 1)) := by
  induction n generalizing x with
  | zero => simp [synthetics]
  | succ n ih =>
      rw [List.range_succ_eq_map, List.map_cons, List.map_map]
      show smoothAcc d dms x :: synthetics d dms (smoothAcc d dms x) n = _
      rw [ih (smoothAcc d dms x)]
      refine congrArg₂ List.cons (by simp [accTimes]) ?_
      refine List.map_congr_left fun k _ => ?_
      simpa [Function.comp] using accTimes_shift d dms x (k + 1)

theorem synthetics_getD (d : FitData) (dms : Int) (x : FitData) (n k : Nat)
    (hk : k < n) :
    (synthetics d dms x n).getD k fitZero = accTimes d dms x (k + 1) := by
  simp [synthetics_eq_map, List.getD, hk]

theorem accTimes_values_ne (d : FitData) (dms : Int) (x : FitData) (k : Nat)
    (i : Fin 11) (hi : i ≠ kTypeTimeStampNext) :
    (accTimes d dms x k).values i = x.values i + k * d.values i := by
  induction k with
  | zero => simp [accTimes]
  | succ k ih =>
      show (smoothAcc d dms (accTimes d dms x k)).values i = _
      rw [smoothAcc, setTsNext_values_ne _ _ i hi]
      show (accTimes d dms x k).values i + d.values i = _
      rw [ih]
      push_cast
      ring

theorem smoothAcc_tsNext (d : FitData) (dms : Int) (y : FitData) :
    (smoothAcc d dms y).values kTypeTimeStampNext =
      (smoothAcc d dms y).values kTypeTimeStamp + dms := by
  unfold smoothAcc
  rw [setTsNext_tsNext, setTsNext_values_ne _ _ _ (by decide)]

theorem accTimes_mask (d : FitData) (dms : Int) (x : FitData) (k : Nat) :
    (accTimes d dms x k).availableTypes =
      if k = 0 then x.availableTypes else x.availableTypes ||| d.availableTypes := by
  induction k with
  | zero => simp [accTimes]
  | succ k ih =>
      cases k with
      | zero => simp [accTimes, smoothAcc, setTsNext, setValue, fitAdd]
      | succ m =>
          simp only [accTimes, smoothAcc, setTsNext, setValue, fitAdd] at ih ⊢
          simp [ih, Nat.or_assoc, Nat.or_self]

/-- Bitmask absorption: every bit of a survives ORing with b. -/
theorem nat_and_or_absorb (a b : Nat) : a &&& (a ||| b) = a := by
  apply Nat.eq_of_testBit_eq
  intro i
  simp only [Nat.testBit_and, Nat.testBit_or]
  cases a.testBit i <;> simp

/-- Fixture: sample with zero values and only the timestamp bit present. -/
def sampleA : FitData := ⟨fun _ => 0, 2 ^ 7⟩

/-- Fixture: sample with timestamp slot 3 and only the timestamp bit present. -/
def sampleB : FitData := ⟨fun i => if i = kTypeTimeStamp then 3 else 0, 2 ^ 7⟩

/-- C1 counterexample: at a = sampleA, b = sampleB, n = 1 the claimed
property — between a and b the stream carries n+1 samples (here the one
synthetic and then b's own emission, the samples after a's emission in
convertEmit) whose adjacent entries differ by the constant per-field step
and whose final entry equals b exactly field-for-field — is false: at the
timestamp slot the step from the synthetic to b is 2, not the constant step
1 (integer division discards the remainder of (b-a)/(n+1)), and the final
entry's timestamp-next slot was overwritten to b.timestamp + 1000 before b
was emitted, so it differs from b's slot as well. -/
theorem C1_counterexample :
    ¬ (((convertEmit 1 [sampleA, sampleB]).drop 1).length = 1 + 1 ∧
       (∀ p ∈ ((convertEmit 1 [sampleA, sampleB]).drop 1).zip
                ((convertEmit 1 [sampleA, sampleB]).drop 1).tail,
          ∀ i : Fin 11,
            p.2.values i - p.1.values i = (smoothStep sampleA sampleB 1).values i) ∧
       (∀ i : Fin 11,
          (((convertEmit 1 [sampleA, sampleB]).drop 1).getD 1 fitZero).values i =
            sampleB.values i) ∧
       (((convertEmit 1 [sampleA, sampleB]).drop 1).getD 1 fitZero).availableTypes =
         sampleB.availableTypes) := by
  decide

/-- C1 (amended): for positive smoothness n, the samples the driver emits
between consecutive accepted records a and b are exactly n synthetics
followed by b's own emission, n+1 samples in total.  The synthetics are
built by repeatedly adding the per-field integer-division step
(b - a')/(n+1) starting from a' (a with its timestamp-next slot already
overwritten), so every slot except timestamp-next advances by that constant
step, while the timestamp-next slot of every emitted sample — a', each
synthetic, and b alike — is overwritten just before export to the sample's
own timestamp plus the constant span (b.timestamp - a.timestamp)/(n+1) (or
plus 1000 ms for the final record); each synthetic carries the union of the
two presence masks, and the entry following the synthetics equals b exactly
in every slot except the overwritten timestamp-next, including its presence
mask. -/
theorem C1_theorem (av bv : FitData) (n : Nat) (_hn : 0 < n)
    (rest : List FitData) :
    convertEmit n (av :: bv :: rest) =
      emitBlock av bv n ++ convertEmit n (bv :: rest) ∧
    emitBlock av bv n =
      setTsNext av (smoothedDiffMs av bv n) ::
        synthetics (smoothStep av bv n) (smoothedDiffMs av bv n)
          (setTsNext av (smoothedDiffMs av bv n)) n ∧
    (synthetics (smoothStep av bv n) (smoothedDiffMs av bv n)
        (setTsNext av (smoothedDiffMs av bv n)) n).length = n ∧
    (∀ k, k < n → ∀ i : Fin 11, i ≠ kTypeTimeStampNext →
      ((synthetics (smoothStep av bv n) (smoothedDiffMs av bv n)
          (setTsNext av (smoothedDiffMs av bv n)) n).getD k fitZero).values i =
        av.values i + (k + 1) * (smoothStep av bv n).values i) ∧
    (∀ k, k < n →
      ((synthetics (smoothStep av bv n) (smoothedDiffMs av bv n)
          (setTsNext av (smoothedDiffMs av bv n)) n).getD k fitZero).values
            kTypeTimeStampNext =
        ((synthetics (smoothStep av bv n) (smoothedDiffMs av bv n)
          (setTsNext av (smoothedDiffMs av bv n)) n).getD k fitZero).values
            kTypeTimeStamp + smoothedDiffMs av bv n) ∧
    (∀ k, k < n →
      ((synthetics (smoothStep av bv n) (smoothedDiffMs av bv n)
          (setTsNext av (smoothedDiffMs av bv n)) n).getD k fitZero).availableTypes =
        av.availableTypes ||| bv.availableTypes) ∧
    (∀ i : Fin 11, i ≠ kTypeTimeStampNext →
      ((convertEmit n (bv :: rest)).getD 0 fitZero).values i = bv.values i) ∧
    ((convertEmit n (bv :: rest)).getD 0 fitZero).availableTypes =
      bv.availableTypes ∧
    ((convertEmit n (bv :: rest)).getD 0 fitZero).values kTypeTimeStampNext =
      bv.values kTypeTimeStamp +
        (match rest with
          | [] => (1000 : Int)
          | cv :: _ => smoothedDiffMs bv cv n) := by
  refine ⟨rfl, rfl, by simp [synthetics_eq_map], ?_, ?_, ?_, ?_, ?_, ?_⟩
  · intro k hk i hi
    rw [synthetics_getD _ _ _ n k hk, accTimes_values_ne _ _ _ _ i hi,
      setTsNext_values_ne _ _ i hi]
    push_cast
    ring
  · intro k hk
    rw [synthetics_getD _ _ _ n k hk]
    exact smoothAcc_tsNext _ _ _
  · intro k hk
    rw [synthetics_getD _ _ _ n k hk, accTimes_mask]
    simp only [Nat.succ_ne_zero, if_false]
    show (setTsNext av _).availableTypes ||| (smoothStep av bv n).availableTypes = _
    show av.availableTypes |||
      (bv.availableTypes ||| (setTsNext av _).availableTypes) = _
    show av.availableTypes ||| (bv.availableTypes ||| av.availableTypes) = _
    rw [Nat.or_comm bv.availableTypes, ← Nat.or_assoc, Nat.or_self]
  · intro i hi
    cases rest with
    | nil =>
        show (setTsNext bv 1000).values i = bv.values i
        exact setTsNext_values_ne bv 1000 i hi
    | cons cv rest2 =>
        show (setTsNext bv (smoothedDiffMs bv cv n)).values i = bv.values i
        exact setTsNext_values_ne bv _ i hi
  · cases rest with
    | nil => rfl
    | cons cv rest2 => rfl
  · cases rest with
    | nil =>
        show (setTsNext bv 1000).values kTypeTimeStampNext =
          bv.values kTypeTimeStamp + 1000
        exact setTsNext_tsNext bv 1000
    | cons cv rest2 =>
        show (setTsNext bv (smoothedDiffMs bv cv n)).values kTypeTimeStampNext =
          bv.values kTypeTimeStamp + smoothedDiffMs bv cv n
        exact setTsNext_tsNext bv _

/-- C1 witness: the amended theorem applied at sampleA, sampleB, n = 1 with
an empty remainder of the stream. -/
theorem C1_witness :
    0 < 1 ∧
    (convertEmit 1 (sampleA :: sampleB :: []) =
      emitBlock sampleA sampleB 1 ++ convertEmit 1 (sampleB :: []) ∧
    emitBlock sampleA sampleB 1 =
      setTsNext sampleA (smoothedDiffMs sampleA sampleB 1) ::
        synthetics (smoothStep sampleA sampleB 1) (smoothedDiffMs sampleA sampleB 1)
          (setTsNext sampleA (smoothedDiffMs sampleA sampleB 1)) 1 ∧
    (synthetics (smoothStep sampleA sampleB 1) (smoothedDiffMs sampleA sampleB 1)
        (setTsNext sampleA (smoothedDiffMs sampleA sampleB 1)) 1).length = 1 ∧
    (∀ k, k < 1 → ∀ i : Fin 11, i ≠ kTypeTimeStampNext →
      ((synthetics (smoothStep sampleA sampleB 1) (smoothedDiffMs sampleA sampleB 1)
          (setTsNext sampleA (smoothedDiffMs sampleA sampleB 1)) 1).getD k
            fitZero).values i =
        sampleA.values i + (k + 1) * (smoothStep sampleA sampleB 1).values i) ∧
    (∀ k, k < 1 →
      ((synthetics (smoothStep sampleA sampleB 1) (smoothedDiffMs sampleA sampleB 1)
          (setTsNext sampleA (smoothedDiffMs sampleA sampleB 1)) 1).getD k
            fitZero).values kTypeTimeStampNext =
        ((synthetics (smoothStep sampleA sampleB 1) (smoothedDiffMs sampleA sampleB 1)
          (setTsNext sampleA (smoothedDiffMs sampleA sampleB 1)) 1).getD k
            fitZero).values kTypeTimeStamp + smoothedDiffMs sampleA sampleB 1) ∧
    (∀ k, k < 1 →
      ((synthetics (smoothStep sampleA sampleB 1) (smoothedDiffMs sampleA sampleB 1)
          (setTsNext sampleA (smoothedDiffMs sampleA sampleB 1)) 1).getD k
            fitZero).availableTypes =
        sampleA.availableTypes ||| sampleB.availableTypes) ∧
    (∀ i : Fin 11, i ≠ kTypeTimeStampNext →
      ((convertEmit 1 (sampleB :: [])).getD 0 fitZero).values i = sampleB.values i) ∧
    ((convertEmit 1 (sampleB :: [])).getD 0 fitZero).availableTypes =
      sampleB.availableTypes ∧
    ((convertEmit 1 (sampleB :: [])).getD 0 fitZero).values kTypeTimeStampNext =
      sampleB.values kTypeTimeStamp + 1000) :=
  ⟨by decide, C1_theorem sampleA sampleB 1 (by decide) []⟩

/-- Fixture: zero-valued sample with mask 1 (speed bit only). -/
def sampleM1 : FitData := ⟨fun _ => 0, 1⟩

/-- Fixture: zero-valued sample with mask 2 (distance bit only). -/
def sampleM2 : FitData := ⟨fun _ => 0, 2⟩

/-- C2 counterexample: the difference of two FitData samples with masks 1 and
2 carries mask 3 = 1 ||| 2, not the claimed bitwise AND (which is 0), and
that mask is wider than either input's mask, not narrower. -/
theorem C2_counterexample :
    (fitSub sampleM1 sampleM2).availableTypes ≠
      sampleM1.availableTypes &&& sampleM2.availableTypes ∧
    (fitSub sampleM1 sampleM2).availableTypes = 3 := by
  decide

/-- C2 (amended): FitData difference, sum and scalar division operate
uniformly over every value slot including absent ones; difference and sum OR
the two presence masks together (so the result's mask contains every bit of
either input's mask and is never narrower), while scalar division preserves
the left operand's mask; the legacy Record operators are the ones that AND
masks for difference and sum. -/
theorem C2_theorem (av bv : FitData) (r1 r2 : Record) (d : Int) (i : Fin 11) :
    (fitSub av bv).values i = av.values i - bv.values i ∧
    (fitAdd av bv).values i = av.values i + bv.values i ∧
    (fitDivScalar av d).values i = Int.tdiv (av.values i) d ∧
    (fitSub av bv).availableTypes = av.availableTypes ||| bv.availableTypes ∧
    (fitAdd av bv).availableTypes = av.availableTypes ||| bv.availableTypes ∧
    (fitDivScalar av d).availableTypes = av.availableTypes ∧
    av.availableTypes &&& (fitSub av bv).availableTypes = av.availableTypes ∧
    (recordSub r1 r2).values i = r1.values i - r2.values i ∧
    (recordAdd r1 r2).values i = r1.values i + r2.values i ∧
    (recordDivScalar r1 d).values i = Int.tdiv (r1.values i) d ∧
    (recordSub r1 r2).valid = r1.valid &&& r2.valid ∧
    (recordAdd r1 r2).valid = r1.valid &&& r2.valid ∧
    (recordDivScalar r1 d).valid = r1.valid := by
  refine ⟨rfl, rfl, rfl, rfl, rfl, rfl, ?_, rfl, rfl, rfl, rfl, rfl, rfl⟩
  exact nat_and_or_absorb av.availableTypes bv.availableTypes

/-! ### Decoder adapter (FitData::ApplyData / ApplyValue, parser.cpp
lines 1737-1768 and 1975-1982, current generation)

One raw FIT record message (FIT_RECORD_MESG) as read by the decoder.  Field
widths follow the FIT SDK: timestamp/distance/enhanced_altitude/
enhanced_speed are FIT_UINT32, heart_rate/cadence are FIT_UINT8,
power/altitude/speed are FIT_UINT16, temperature is FIT_SINT8 and
position_lat/position_long are FIT_SINT32.  The sentinel "invalid" value of
each width is the maximum of its type (checked by the static_asserts in the
FitData constructor). -/

/-- Raw FIT record message fields used by ApplyData. -/
structure RawRecord where
  timestamp : Nat
  distance : Int
  heartRate : Int
  cadence : Int
  power : Int
  altitude : Int
  enhancedAltitude : Int
  speed : Int
  enhancedSpeed : Int
  temperature : Int
  positionLat : Int
  positionLong : Int
  deriving Repr

/-- FIT_UINT32_INVALID. -/
def uint32Invalid : Int := 4294967295

/-- FIT_UINT16_INVALID. -/
def uint16Invalid : Int := 65535

/-- FIT_BYTE_INVALID (also FIT_UINT8_INVALID). -/
def byteInvalid : Int := 255

/-- FIT_SINT8_INVALID. -/
def sint8Invalid : Int := 127

/-- FIT_SINT32_INVALID. -/
def sint32Invalid : Int := 2147483647

/-- Sentinel for the int64-typed ApplyValue instantiation used for the
timestamp milliseconds (std::numeric_limits of int64_t). -/
def int64Max : Int := 9223372036854775807

/-- CheckType / the mask test in ApplyValue: collect_data_types & mask. -/
def hasType (collect : Nat) (t : Fin 11) : Prop := collect &&& typeMask t ≠ 0

instance (collect : Nat) (t : Fin 11) : Decidable (hasType collect t) := by
  unfold hasType
  infer_instance

/-- FitData::ApplyValue (parser.cpp lines 1975-1982): store the value and set
its presence bit only when the value is not the sentinel maximum of its raw
type and the kind is selected in collect_data_types. -/
def applyValue (t : Fin 11) (v sentinel : Int) (collect : Nat) (s : FitData) : FitData :=
  if v ≠ sentinel ∧ hasType collect t then
    ⟨Function.update s.values t v, s.availableTypes ||| typeMask t⟩
  else s

/-- FitData::ApplyData (parser.cpp lines 1737-1768): zero the sample, then
apply every raw field in source order.  Both timestamp slots receive the
device timestamp converted to milliseconds; enhanced altitude and speed are
applied after (and therefore overwrite) the standard-width variants. -/
def applyData (raw : RawRecord) (collect : Nat) : FitData :=
  let msec : Int := (raw.timestamp : Int) * 1000
  let s := fitZero
  let s := applyValue kTypeTimeStamp msec int64Max collect s
  let s := applyValue kTypeTimeStampNext msec int64Max collect s
  let s := applyValue kTypeDistance raw.distance uint32Invalid collect s
  let s := applyValue kTypeHeartRate raw.heartRate byteInvalid collect s
  let s := applyValue kTypeCadence raw.cadence byteInvalid collect s
  let s := applyValue kTypePower raw.power uint16Invalid collect s
  let s := applyValue kTypeAltitude raw.altitude uint16Invalid collect s
  let s := applyValue kTypeAltitude raw.enhancedAltitude uint32Invalid collect s
  let s := applyValue kTypeSpeed raw.speed uint16Invalid collect s
  let s := applyValue kTypeSpeed raw.enhancedSpeed uint32Invalid collect s
  let s := applyValue kTypeTemperature raw.temperature sint8Invalid collect s
  let s := applyValue kTypeLatitude raw.positionLat sint32Invalid collect s
  applyValue kTypeLongitude raw.positionLong sint32Invalid collect s

theorem applyValue_testBit_ne (t : Fin 11) (v sentinel : Int) (collect : Nat)
    (s : FitData) (i : Nat) (hi : i ≠ (t : Nat)) :
    ((applyValue t v sentinel collect s).availableTypes).testBit i =
      s.availableTypes.testBit i := by
  unfold applyValue
  split
  · simp [typeMask, Nat.testBit_or, Nat.testBit_two_pow_of_ne (Ne.symm hi)]
  · rfl

theorem applyValue_values_ne (t : Fin 11) (v sentinel : Int) (collect : Nat)
    (s : FitData) (i : Fin 11) (hi : i ≠ t) :
    (applyValue t v sentinel collect s).values i = s.values i := by
  unfold applyValue
  split
  · exact Function.update_noteq hi v s.values
  · rfl

theorem applyValue_testBit_self (t : Fin 11) (v sentinel : Int) (collect : Nat)
    (s : FitData) :
    ((applyValue t v sentinel collect s).availableTypes).testBit (t : Nat) =
      (s.availableTypes.testBit (t : Nat) || (v ≠ sentinel ∧ hasType collect t)) := by
  unfold applyValue
  split
  · next h => simp [typeMask, Nat.testBit_or, h]
  · next h => simp [h]

theorem applyValue_values_self (t : Fin 11) (v sentinel : Int) (collect : Nat)
    (s : FitData) :
    (applyValue t v sentinel collect s).values t =
      if v ≠ sentinel ∧ hasType collect t then v else s.values t := by
  unfold applyValue
  split
  · simp
  · simp

/-! ### Legacy decoder (FitParser, parser.cpp lines 400-469)

The 2022-era parser builds a Record per raw message: both timestamp slots
unconditionally, then each physical field guarded by its sentinel check and
CheckType, with latitude and longitude applied only as a simultaneously
valid pair. -/

/-- Legacy free-function ApplyValue (parser.cpp lines 327-331): store the
value and set the Valid bit, unconditionally. -/
def legacyApply (t : Fin 11) (v : Int) (r : Record) : Record :=
  ⟨Function.update r.values t v, r.valid ||| typeMask t⟩

/-- One guarded legacy field application: the call-site pattern
`if sentinel-check && CheckType then ApplyValue(record, type, value)`. -/
def condApply (c : Prop) [Decidable c] (t : Fin 11) (v : Int) (r : Record) : Record :=
  if c then legacyApply t v r else r

/-- The legacy paired position application (parser.cpp lines 459-466): both
slots and both bits, only when both raw fields pass the sentinel check and
both kinds are selected. -/
def pairApply (c : Prop) [Decidable c] (vlat vlong : Int) (r : Record) : Record :=
  if c then legacyApply kTypeLongitude vlong (legacyApply kTypeLatitude vlat r) else r

/-- Legacy per-record decode (parser.cpp lines 400-466), without the
timestamp-next fixup of the previous entry which needs the following
record. -/
def legacyRecordOf (raw : RawRecord) (collect : Nat) : Record :=
  let msec : Int := (raw.timestamp : Int) * 1000
  let r : Record := ⟨fun _ => 0, 0⟩
  let r := legacyApply kTypeTimeStamp msec r
  let r := legacyApply kTypeTimeStampNext (msec + 1000) r
  let r := condApply (raw.distance ≠ uint32Invalid ∧ hasType collect kTypeDistance)
      kTypeDistance raw.distance r
  let r := condApply (raw.heartRate ≠ byteInvalid ∧ hasType collect kTypeHeartRate)
      kTypeHeartRate raw.heartRate r
  let r := condApply (raw.cadence ≠ byteInvalid ∧ hasType collect kTypeCadence)
      kTypeCadence raw.cadence r
  let r := condApply (raw.power ≠ uint16Invalid ∧ hasType collect kTypePower)
      kTypePower raw.power r
  let r := condApply (raw.altitude ≠ uint16Invalid ∧ hasType collect kTypeAltitude)
      kTypeAltitude raw.altitude r
  let r := condApply (raw.enhancedAltitude ≠ uint32Invalid ∧ hasType collect kTypeAltitude)
      kTypeAltitude raw.enhancedAltitude r
  let r := condApply (raw.speed ≠ uint16Invalid ∧ hasType collect kTypeSpeed)
      kTypeSpeed raw.speed r
  let r := condApply (raw.enhancedSpeed ≠ uint32Invalid ∧ hasType collect kTypeSpeed)
      kTypeSpeed raw.enhancedSpeed r
  let r := condApply (raw.temperature ≠ sint8Invalid ∧ hasType collect kTypeTemperature)
      kTypeTemperature raw.temperature r
  pairApply (raw.positionLat ≠ sint32Invalid ∧ raw.positionLong ≠ sint32Invalid ∧
      hasType collect kTypeLatitude ∧ hasType collect kTypeLongitude)
    raw.positionLat raw.positionLong r

theorem legacyApply_testBit_ne (t : Fin 11) (v : Int) (r : Record) (i : Nat)
    (hi : i ≠ (t : Nat)) :
    (legacyApply t v r).valid.testBit i = r.valid.testBit i := by
  simp [legacyApply, typeMask, Nat.testBit_or, Nat.testBit_two_pow_of_ne (Ne.symm hi)]

theorem condApply_testBit_ne (c : Prop) [Decidable c] (t : Fin 11) (v : Int)
    (r : Record) (i : Nat) (hi : i ≠ (t : Nat)) :
    (condApply c t v r).valid.testBit i = r.valid.testBit i := by
  unfold condApply
  split
  · exact legacyApply_testBit_ne t v r i hi
  · rfl

theorem applyData_testBit_ts (raw : RawRecord) (collect : Nat) :
    (applyData raw collect).availableTypes.testBit 7 =
      decide (hasType collect kTypeTimeStamp) := by
  have hmsec : ((raw.timestamp : Int) * 1000) ≠ int64Max := by
    simp only [int64Max]
    omega
  simp only [applyData]
  rw [applyValue_testBit_ne _ _ _ _ _ _ (by decide)]
  rw [applyValue_testBit_ne _ _ _ _ _ _ (by decide)]
  rw [applyValue_testBit_ne _ _ _ _ _ _ (by decide)]
  rw [applyValue_testBit_ne _ _ _ _ _ _ (by decide)]
  rw [applyValue_testBit_ne _ _ _ _ _ _ (by decide)]
  rw [applyValue_testBit_ne _ _ _ _ _ _ (by decide)]
  rw [applyValue_testBit_ne _ _ _ _ _ _ (by decide)]
  rw [applyValue_testBit_ne _ _ _ _ _ _ (by decide)]
  rw [applyValue_testBit_ne _ _ _ _ _ _ (by decide)]
  rw [applyValue_testBit_ne _ _ _ _ _ _ (by decide)]
  rw [applyValue_testBit_ne _ _ _ _ _ _ (by decide)]
  rw [applyValue_testBit_ne _ _ _ _ _ _ (by decide)]
  rw [show (7 : Nat) = ((kTypeTimeStamp : Fin 11) : Nat) from rfl]
  rw [applyValue_testBit_self]
  simp [fitZero, hmsec]

theorem applyData_values_ts (raw : RawRecord) (collect : Nat) :
    (applyData raw collect).values kTypeTimeStamp =
      if hasType collect kTypeTimeStamp then (raw.timestamp : Int) * 1000 else 0 := by
  have hmsec : ((raw.timestamp : Int) * 1000) ≠ int64Max := by
    simp only [int64Max]
    omega
  simp only [applyData]
  rw [applyValue_values_ne _ _ _ _ _ _ (by decide)]
  rw [applyValue_values_ne _ _ _ _ _ _ (by decide)]
  rw [applyValue_values_ne _ _ _ _ _ _ (by decide)]
  rw [applyValue_values_ne _ _ _ _ _ _ (by decide)]
  rw [applyValue_values_ne _ _ _ _ _ _ (by decide)]
  rw [applyValue_values_ne _ _ _ _ _ _ (by decide)]
  rw [applyValue_values_ne _ _ _ _ _ _ (by decide)]
  rw [applyValue_values_ne _ _ _ _ _ _ (by decide)]
  rw [applyValue_values_ne _ _ _ _ _ _ (by decide)]
  rw [applyValue_values_ne _ _ _ _ _ _ (by decide)]
  rw [applyValue_values_ne _ _ _ _ _ _ (by decide)]
  rw [applyValue_values_ne _ _ _ _ _ _ (by decide)]
  rw [applyValue_values_self]
  simp [fitZero, hmsec]

theorem applyData_testBit_lat (raw : RawRecord) (collect : Nat) :
    (applyData raw collect).availableTypes.testBit 8 =
      decide (raw.positionLat ≠ sint32Invalid ∧ hasType collect kTypeLatitude) := by
  simp only [applyData]
  rw [applyValue_testBit_ne _ _ _ _ _ _ (by decide)]
  rw [show (8 : Nat) = ((kTypeLatitude : Fin 11) : Nat) from rfl]
  rw [applyValue_testBit_self]
  rw [applyValue_testBit_ne _ _ _ _ _ _ (by decide)]
  rw [applyValue_testBit_ne _ _ _ _ _ _ (by decide)]
  rw [applyValue_testBit_ne _ _ _ _ _ _ (by decide)]
  rw [applyValue_testBit_ne _ _ _ _ _ _ (by decide)]
  rw [applyValue_testBit_ne _ _ _ _ _ _ (by decide)]
  rw [applyValue_testBit_ne _ _ _ _ _ _ (by decide)]
  rw [applyValue_testBit_ne _ _ _ _ _ _ (by decide)]
  rw [applyValue_testBit_ne _ _ _ _ _ _ (by decide)]
  rw [applyValue_testBit_ne _ _ _ _ _ _ (by decide)]
  rw [applyValue_testBit_ne _ _ _ _ _ _ (by decide)]
  rw [applyValue_testBit_ne _ _ _ _ _ _ (by decide)]
  simp [fitZero]

theorem applyData_testBit_long (raw : RawRecord) (collect : Nat) :
    (applyData raw collect).availableTypes.testBit 9 =
      decide (raw.positionLong ≠ sint32Invalid ∧ hasType collect kTypeLongitude) := by
  simp only [applyData]
  rw [show (9 : Nat) = ((kTypeLongitude : Fin 11) : Nat) from rfl]
  rw [applyValue_testBit_self]
  rw [applyValue_testBit_ne _ _ _ _ _ _ (by decide)]
  rw [applyValue_testBit_ne _ _ _ _ _ _ (by decide)]
  rw [applyValue_testBit_ne _ _ _ _ _ _ (by decide)]
  rw [applyValue_testBit_ne _ _ _ _ _ _ (by decide)]
  rw [applyValue_testBit_ne _ _ _ _ _ _ (by decide)]
  rw [applyValue_testBit_ne _ _ _ _ _ _ (by decide)]
  rw [applyValue_testBit_ne _ _ _ _ _ _ (by decide)]
  rw [applyValue_testBit_ne _ _ _ _ _ _ (by decide)]
  rw [applyValue_testBit_ne _ _ _ _ _ _ (by decide)]
  rw [applyValue_testBit_ne _ _ _ _ _ _ (by decide)]
  rw [applyValue_testBit_ne _ _ _ _ _ _ (by decide)]
  rw [applyValue_testBit_ne _ _ _ _ _ _ (by decide)]
  simp [fitZero]

theorem legacyApply_testBit_self (t : Fin 11) (v : Int) (r : Record) :
    (legacyApply t v r).valid.testBit (t : Nat) = true := by
  simp [legacyApply, typeMask, Nat.testBit_or]

theorem pairApply_testBit_lat (c : Prop) [Decidable c] (vlat vlong : Int) (r : Record) :
    (pairApply c vlat vlong r).valid.testBit 8 = (r.valid.testBit 8 || decide c) := by
  unfold pairApply
  split
  · next h =>
      rw [legacyApply_testBit_ne _ _ _ _ (by decide)]
      rw [show (8 : Nat) = ((kTypeLatitude : Fin 11) : Nat) from rfl]
      rw [legacyApply_testBit_self]
      simp [h]
  · next h => simp [h]

theorem pairApply_testBit_long (c : Prop) [Decidable c] (vlat vlong : Int) (r : Record) :
    (pairApply c vlat vlong r).valid.testBit 9 = (r.valid.testBit 9 || decide c) := by
  unfold pairApply
  split
  · next h =>
      rw [show (9 : Nat) = ((kTypeLongitude : Fin 11) : Nat) from rfl]
      rw [legacyApply_testBit_self]
      simp [h]
  · next h => simp [h]

theorem legacy_testBit_lat (raw : RawRecord) (collect : Nat) :
    (legacyRecordOf raw collect).valid.testBit 8 =
      decide (raw.positionLat ≠ sint32Invalid ∧ raw.positionLong ≠ sint32Invalid ∧
        hasType collect kTypeLatitude ∧ hasType collect kTypeLongitude) := by
  simp only [legacyRecordOf]
  rw [pairApply_testBit_lat]
  rw [condApply_testBit_ne _ _ _ _ _ (by decide)]
  rw [condApply_testBit_ne _ _ _ _ _ (by decide)]
  rw [condApply_testBit_ne _ _ _ _ _ (by decide)]
  rw [condApply_testBit_ne _ _ _ _ _ (by decide)]
  rw [condApply_testBit_ne _ _ _ _ _ (by decide)]
  rw [condApply_testBit_ne _ _ _ _ _ (by decide)]
  rw [condApply_testBit_ne _ _ _ _ _ (by decide)]
  rw [condApply_testBit_ne _ _ _ _ _ (by decide)]
  rw [condApply_testBit_ne _ _ _ _ _ (by decide)]
  rw [legacyApply_testBit_ne _ _ _ _ (by decide)]
  rw [legacyApply_testBit_ne _ _ _ _ (by decide)]
  simp

theorem legacy_testBit_long (raw : RawRecord) (collect : Nat) :
    (legacyRecordOf raw collect).valid.testBit 9 =
      decide (raw.positionLat ≠ sint32Invalid ∧ raw.positionLong ≠ sint32Invalid ∧
        hasType collect kTypeLatitude ∧ hasType collect kTypeLongitude) := by
  simp only [legacyRecordOf]
  rw [pairApply_testBit_long]
  rw [condApply_testBit_ne _ _ _ _ _ (by decide)]
  rw [condApply_testBit_ne _ _ _ _ _ (by decide)]
  rw [condApply_testBit_ne _ _ _ _ _ (by decide)]
  rw [condApply_testBit_ne _ _ _ _ _ (by decide)]
  rw [condApply_testBit_ne _ _ _ _ _ (by decide)]
  rw [condApply_testBit_ne _ _ _ _ _ (by decide)]
  rw [condApply_testBit_ne _ _ _ _ _ (by decide)]
  rw [condApply_testBit_ne _ _ _ _ _ (by decide)]
  rw [condApply_testBit_ne _ _ _ _ _ (by decide)]
  rw [legacyApply_testBit_ne _ _ _ _ (by decide)]
  rw [legacyApply_testBit_ne _ _ _ _ (by decide)]
  simp

/-- Fixture: a plausible raw record with all fields valid. -/
def rawAllValid : RawRecord :=
  ⟨1000000000, 123456, 100, 80, 250, 2600, 3000, 5000, 5500, 20, 5, 6⟩

/-- Fixture: raw record whose longitude carries the FIT_SINT32 sentinel while
its latitude is valid. -/
def rawLatOnly : RawRecord :=
  ⟨1000000000, 123456, 100, 80, 250, 2600, 3000, 5000, 5500, 20, 5, 2147483647⟩

/-- C4 counterexample: decoding rawAllValid with a selection mask of 1 (speed
only) leaves the timestamp presence bit clear and the timestamp slot zero —
the current decoder does gate timestamp extraction on the caller's field
selection, contrary to the claim. -/
theorem C4_counterexample :
    ¬ ((applyData rawAllValid 1).availableTypes.testBit 7 = true ∧
       (applyData rawAllValid 1).values kTypeTimeStamp =
         (rawAllValid.timestamp : Int) * 1000) := by
  decide

/-- C4 (amended): the Sample produced by the current decoder has its
timestamp presence bit set if and only if the selection mask includes the
timestamp field kind; when it is included the timestamp slot holds the
device timestamp in seconds multiplied by 1000, and otherwise the slot stays
zero.  The sentinel test on the millisecond value never fires because a
multiple of 1000 cannot equal the int64 sentinel. -/
theorem C4_theorem (raw : RawRecord) (collect : Nat) :
    ((applyData raw collect).availableTypes.testBit 7 = true ↔
      hasType collect kTypeTimeStamp) ∧
    (applyData raw collect).values kTypeTimeStamp =
      (if hasType collect kTypeTimeStamp then (raw.timestamp : Int) * 1000 else 0) := by
  refine ⟨?_, applyData_values_ts raw collect⟩
  rw [applyData_testBit_ts raw collect]
  simp

/-- C5 counterexample: decoding rawLatOnly (valid latitude, sentinel
longitude) with the full selection mask sets the latitude presence bit while
leaving the longitude bit clear — the current decoder does not apply the
position fields as a pair, contrary to the claim that such a record gets
neither bit set. -/
theorem C5_counterexample :
    (applyData rawLatOnly 4294967295).availableTypes.testBit 8 = true ∧
    (applyData rawLatOnly 4294967295).availableTypes.testBit 9 = false := by
  decide

/-- C5 (amended): the current decoder applies latitude and longitude
independently — each presence bit is set if and only if its own raw field is
not the FIT_SINT32 sentinel and its own kind is selected; only the legacy
FitParser applied the two fields as a pair, setting either bit exactly when
both raw fields are simultaneously valid and both kinds are selected. -/
theorem C5_theorem (raw : RawRecord) (collect : Nat) :
    ((applyData raw collect).availableTypes.testBit 8 = true ↔
      (raw.positionLat ≠ sint32Invalid ∧ hasType collect kTypeLatitude)) ∧
    ((applyData raw collect).availableTypes.testBit 9 = true ↔
      (raw.positionLong ≠ sint32Invalid ∧ hasType collect kTypeLongitude)) ∧
    ((legacyRecordOf raw collect).valid.testBit 8 = true ↔
      (raw.positionLat ≠ sint32Invalid ∧ raw.positionLong ≠ sint32Invalid ∧
        hasType collect kTypeLatitude ∧ hasType collect kTypeLongitude)) ∧
    ((legacyRecordOf raw collect).valid.testBit 9 = true ↔
      (raw.positionLat ≠ sint32Invalid ∧ raw.positionLong ≠ sint32Invalid ∧
        hasType collect kTypeLatitude ∧ hasType collect kTypeLongitude)) := by
  rw [applyData_testBit_lat raw collect, applyData_testBit_long raw collect,
    legacy_testBit_lat raw collect, legacy_testBit_long raw collect]
  simp

/-! ### Timeline remapping (Convert, parser.cpp lines 2092-2129)

Per accepted record the driver captures the first fit timestamp once
(advanced by a positive offset, or setting the first video timestamp for a
negative one), drops records that precede the captured origin while the
offset is positive, and otherwise builds the sample with ApplyData before
overwriting its timestamp slot with the remapped video-domain value. -/

/-- The two timeline-state variables of Convert: first_fit_timestamp and
first_video_timestamp, both initially zero. -/
structure ConvState where
  firstFit : Int
  firstVideo : Int
  deriving Repr

/-- One raw record through the capture / drop / extract / rewrite sequence of
the decode loop body.  Returns the updated state and the emitted sample, or
none when the record is dropped. -/
def remapStep (offset : Int) (collect : Nat) (st : ConvState) (raw : RawRecord) :
    ConvState × Option FitData :=
  let typeMsec : Int := (raw.timestamp : Int) * 1000
  let st :=
    if st.firstFit = 0 then
      if offset > 0 then ⟨typeMsec + offset, st.firstVideo⟩
      else if offset < 0 then ⟨typeMsec, abs offset⟩
      else ⟨typeMsec, st.firstVideo⟩
    else st
  if offset > 0 ∧ typeMsec < st.firstFit then (st, none)
  else
    let sample := applyData raw collect
    (st, some (setValue sample kTypeTimeStamp ((typeMsec - st.firstFit) + st.firstVideo)))

/-- The decode loop folded over a list of raw record messages, collecting the
emitted samples in order. -/
def remapStream (offset : Int) (collect : Nat) : ConvState → List RawRecord → List FitData
  | _, [] => []
  | st, r :: rs =>
      match remapStep offset collect st r with
      | (st1, none) => remapStream offset collect st1 rs
      | (st1, some s) => s :: remapStream offset collect st1 rs

theorem remapStep_no_capture (offset : Int) (collect : Nat) (st : ConvState)
    (raw : RawRecord) (h : st.firstFit ≠ 0) :
    remapStep offset collect st raw =
      (st, if offset > 0 ∧ (raw.timestamp : Int) * 1000 < st.firstFit then none
        else some (setValue (applyData raw collect) kTypeTimeStamp
          (((raw.timestamp : Int) * 1000 - st.firstFit) + st.firstVideo))) := by
  simp only [remapStep, h, if_false]
  split
  · rfl
  · rfl

theorem remapStream_const (offset F : Int) (collect : Nat) (hoff : 0 < offset)
    (hF : F ≠ 0) (rs : List RawRecord) :
    remapStream offset collect ⟨F, 0⟩ rs =
      rs.filterMap (fun r =>
        if (r.timestamp : Int) * 1000 < F then none
        else some (setValue (applyData r collect) kTypeTimeStamp
          (((r.timestamp : Int) * 1000 - F) + 0))) := by
  induction rs with
  | nil => rfl
  | cons r rs ih =>
      rw [List.filterMap_cons]
      show (match remapStep offset collect ⟨F, 0⟩ r with
        | (st1, none) => remapStream offset collect st1 rs
        | (st1, some s) => s :: remapStream offset collect st1 rs) = _
      rw [remapStep_no_capture offset collect ⟨F, 0⟩ r hF]
      by_cases hlt : (r.timestamp : Int) * 1000 < F
      · simp only [hoff, hlt, and_self, if_true]
        simpa using ih
      · simp only [hlt, and_false, if_false]
        simpa using ih

/-- C3: with a positive offset, the first record captures
firstDeviceTs = firstTimestampMs + offset and firstVideoTs = 0; every record
of the stream is dropped exactly when its device timestamp (in ms) is below
that captured origin — in particular the first record itself is always
dropped — and every emitted sample is the field extraction ApplyData of the
raw record with its timestamp slot rewritten afterwards to
(originalTimestampMs - firstDeviceTs) + firstVideoTs. -/
theorem C3_theorem (offset : Int) (collect : Nat) (r0 : RawRecord)
    (rs : List RawRecord) (hoff : 0 < offset) :
    remapStream offset collect ⟨0, 0⟩ (r0 :: rs) =
      (r0 :: rs).filterMap (fun r =>
        if (r.timestamp : Int) * 1000 < (r0.timestamp : Int) * 1000 + offset then none
        else some (setValue (applyData r collect) kTypeTimeStamp
          (((r.timestamp : Int) * 1000 - ((r0.timestamp : Int) * 1000 + offset)) + 0))) := by
  have hF : (r0.timestamp : Int) * 1000 + offset ≠ 0 := by
    have : (0 : Int) ≤ (r0.timestamp : Int) * 1000 := by positivity
    omega
  have hdrop : (r0.timestamp : Int) * 1000 < (r0.timestamp : Int) * 1000 + offset := by omega
  rw [List.filterMap_cons]
  show (match remapStep offset collect ⟨0, 0⟩ r0 with
    | (st1, none) => remapStream offset collect st1 rs
    | (st1, some s) => s :: remapStream offset collect st1 rs) = _
  have hstep : remapStep offset collect ⟨0, 0⟩ r0 =
      (⟨(r0.timestamp : Int) * 1000 + offset, 0⟩, none) := by
    simp only [remapStep, hoff, if_true, if_pos rfl]
    simp [hoff, hdrop]
  rw [hstep]
  simp only [hdrop, if_true]
  exact remapStream_const offset _ collect hoff hF rs

/-- Fixture: a two-element raw stream for the C3 witness. -/
def rawTail : RawRecord :=
  ⟨1000000002, 123456, 100, 80, 250, 2600, 3000, 5000, 5500, 20, 5, 6⟩

/-- C3 witness: the theorem applied at offset 500 with the concrete
two-record stream rawAllValid, rawTail. -/
theorem C3_witness :
    (0 : Int) < 500 ∧
    remapStream 500 4294967295 ⟨0, 0⟩ ([rawAllValid, rawTail]) =
      ([rawAllValid, rawTail]).filterMap (fun r =>
        if (r.timestamp : Int) * 1000 < (rawAllValid.timestamp : Int) * 1000 + 500 then none
        else some (setValue (applyData r 4294967295) kTypeTimeStamp
          (((r.timestamp : Int) * 1000 -
            ((rawAllValid.timestamp : Int) * 1000 + 500)) + 0))) :=
  ⟨by decide, C3_theorem 500 4294967295 rawAllValid [rawTail] (by decide)⟩

/-! ### Time decomposition and timestamp formatting (parser.cpp lines
1595-1613 and 1683-1723)

The Time constructor throws std::invalid_argument for inputs above 99 hours
(356400000 ms), modelled by Option; below that it decomposes the total into
hours, minutes, seconds and milliseconds with uint64 arithmetic and
narrowing casts (uint8 for the hour/minute/second quotients, uint16 for the
milliseconds).  format_timestamp renders HH:MM:SS.mmm, failing (returning
length zero, modelled by none) when the buffer is too small or a two-digit
field exceeds 99 or the millisecond field exceeds 999. -/

/-- Decimal digit character, as produced by the ASCII arithmetic
`'0' + value` in the source. -/
def digitChar (k : Nat) : Char := Char.ofNat (48 + k)

/-- The fields of struct Time.  The hours member is uint16_t but is assigned
from a uint8_t cast; minutes and seconds are uint8_t, milliseconds
uint16_t. -/
structure TimeParts where
  milliseconds : Nat
  hours : Nat
  minutes : Nat
  seconds : Nat
  deriving Repr

/-- Wrapping uint64 subtraction (the subtrahend is below 2^64 in every
use). -/
def wsub64 (a b : Nat) : Nat :=
  (a + 18446744073709551616 - b) % 18446744073709551616

/-- Time::Time (parser.cpp lines 1596-1607): none models the
std::invalid_argument throw above 99 hours; otherwise the millisecond total
is converted to uint64 and decomposed step by step with narrowing casts. -/
def timeOf (msTotal : Int) : Option TimeParts :=
  if msTotal > 356400000 then none
  else
    let r0 : Nat := (msTotal % 18446744073709551616).toNat
    let hours := (r0 / 3600000) % 256
    let r1 := wsub64 r0 (hours * 3600000)
    let minutes := (r1 / 60000) % 256
    let r2 := wsub64 r1 (minutes * 60000)
    let seconds := (r2 / 1000) % 256
    let milliseconds := (wsub64 r2 (seconds * 1000)) % 65536
    some ⟨milliseconds, hours, minutes, seconds⟩

/-- write_2digits (parser.cpp lines 1689-1697): two ASCII digits, failing
above 99 (the value-below-zero test on the unsigned parameter can never
fire). -/
def write2 (v : Nat) : Option (List Char) :=
  if v > 99 then none
  else some [digitChar ((v / 10) % 10), digitChar (v % 10)]

/-- write_3digits (parser.cpp lines 1699-1709): three ASCII digits, failing
above 999. -/
def write3 (v : Nat) : Option (List Char) :=
  if v > 999 then none
  else some [digitChar (v / 100), digitChar ((v / 10) % 10), digitChar (v % 10)]

/-- format_timestamp (parser.cpp lines 1683-1723): needs at least 16 bytes
of buffer, then HH:MM:SS.mmm; the hour field is narrowed from uint16 to the
uint8 parameter of write_2digits. -/
def formatTimestamp (bufSize : Nat) (t : TimeParts) : Option (List Char) :=
  if bufSize < 16 then none
  else
    match write2 (t.hours % 256) with
    | none => none
    | some hh =>
      match write2 t.minutes with
      | none => none
      | some mm =>
        match write2 t.seconds with
        | none => none
        | some ss =>
          match write3 t.milliseconds with
          | none => none
          | some mmm => some (hh ++ [':'] ++ mm ++ [':'] ++ ss ++ ['.'] ++ mmm)

/-- The formatting chain used by the driver: construct Time from a
millisecond total (which may throw) and render it into the 32-byte
formatting buffer. -/
def formatMs (ms : Int) : Option (List Char) :=
  (timeOf ms).bind (formatTimestamp 32)

theorem timeOf_eq (ms : Int) (h0 : 0 ≤ ms) (h1 : ms ≤ 356400000) :
    timeOf ms = some ⟨ms.toNat % 3600000 % 60000 % 1000, ms.toNat / 3600000,
      ms.toNat % 3600000 / 60000, ms.toNat % 3600000 % 60000 / 1000⟩ := by
  have hneg : ¬ ms > 356400000 := by omega
  have hmod : ms % 18446744073709551616 = ms := Int.emod_eq_of_lt h0 (by omega)
  have hm : ms.toNat ≤ 356400000 := by omega
  have s1 : ms.toNat / 3600000 % 256 = ms.toNat / 3600000 := by omega
  have s2 : wsub64 ms.toNat (ms.toNat / 3600000 * 3600000) = ms.toNat % 3600000 := by
    simp only [wsub64]
    omega
  have s3 : ms.toNat % 3600000 / 60000 % 256 = ms.toNat % 3600000 / 60000 := by omega
  have s4 : wsub64 (ms.toNat % 3600000) (ms.toNat % 3600000 / 60000 * 60000) =
      ms.toNat % 3600000 % 60000 := by
    simp only [wsub64]
    omega
  have s5 : ms.toNat % 3600000 % 60000 / 1000 % 256 =
      ms.toNat % 3600000 % 60000 / 1000 := by omega
  have s6 : wsub64 (ms.toNat % 3600000 % 60000)
        (ms.toNat % 3600000 % 60000 / 1000 * 1000) % 65536 =
      ms.toNat % 3600000 % 60000 % 1000 := by
    simp only [wsub64]
    omega
  simp only [timeOf, hneg, if_false, hmod, s1, s2, s3, s4, s5, s6]

/-- C9: for every millisecond total in [0, 356400000] the Time decomposition
succeeds and satisfies hours*3600000 + minutes*60000 + seconds*1000 +
milliseconds = input, with minutes and seconds below 60, milliseconds below
1000 and hours at most 99; the narrowing casts are the identity in this
range, so the decomposition is the unique base-60/1000 representation and
loses no information. -/
theorem C9_theorem (ms : Int) (h0 : 0 ≤ ms) (h1 : ms ≤ 356400000) :
    ∃ t, timeOf ms = some t ∧
      (t.hours : Int) * 3600000 + (t.minutes : Int) * 60000 +
        (t.seconds : Int) * 1000 + (t.milliseconds : Int) = ms ∧
      t.minutes < 60 ∧ t.seconds < 60 ∧ t.milliseconds < 1000 ∧ t.hours ≤ 99 := by
  refine ⟨_, timeOf_eq ms h0 h1, ?_, ?_, ?_, ?_, ?_⟩ <;> simp only [] <;> omega

/-- C9 witness: the decomposition theorem applied at 123456789 ms. -/
theorem C9_witness :
    (0 : Int) ≤ 123456789 ∧ (123456789 : Int) ≤ 356400000 ∧
    (∃ t, timeOf 123456789 = some t ∧
      (t.hours : Int) * 3600000 + (t.minutes : Int) * 60000 +
        (t.seconds : Int) * 1000 + (t.milliseconds : Int) = 123456789 ∧
      t.minutes < 60 ∧ t.seconds < 60 ∧ t.milliseconds < 1000 ∧ t.hours ≤ 99) :=
  ⟨by decide, by decide, C9_theorem 123456789 (by decide) (by decide)⟩

/-- C7: timestamp formatting succeeds for every non-negative millisecond
total up to 99 hours (356400000 ms) and is a hard failure beyond; 11111 ms
renders as 00:00:11.111, 123456789 ms as 34:17:36.789 (hours exceed 24) and
1234567890 ms (beyond 99 hours) fails in the Time constructor rather than
truncating. -/
theorem C7_theorem (ms : Int) (h0 : 0 ≤ ms) (h1 : ms ≤ 356400000) :
    (∃ s, formatMs ms = some s) ∧
    formatMs 11111 = some ("00:00:11.111".toList) ∧
    formatMs 123456789 = some ("34:17:36.789".toList) ∧
    formatMs 1234567890 = none := by
  refine ⟨?_, by decide, by decide, by decide⟩
  rw [formatMs, timeOf_eq ms h0 h1, Option.some_bind]
  simp only [formatTimestamp, write2, write3]
  rw [if_neg (by omega), if_neg (by omega), if_neg (by omega), if_neg (by omega),
    if_neg (by omega)]
  exact ⟨_, rfl⟩

/-- C7 witness: the formatting theorem applied at 123456789 ms. -/
theorem C7_witness :
    (0 : Int) ≤ 123456789 ∧ (123456789 : Int) ≤ 356400000 ∧
    ((∃ s, formatMs 123456789 = some s) ∧
     formatMs 11111 = some ("00:00:11.111".toList) ∧
     formatMs 123456789 = some ("34:17:36.789".toList) ∧
     formatMs 1234567890 = none) :=
  ⟨by decide, by decide, C7_theorem 123456789 (by decide) (by decide)⟩

/-! ### DataSourceMemory (datasource.cpp lines 71-93)

The in-memory source tracks a read position inside a byte span of length
count; each ReadData fills the caller's fixed-capacity buffer and reports a
status plus the number of bytes delivered (the buffer's data size).  The
position never exceeds count, so the size_t subtraction computing the
remaining byte count never wraps. -/

/-- DataSource::Status. -/
inductive ReadStatus where
  | continueRead
  | endOfFile
  | errorRead
  deriving DecidableEq, Repr

/-- The mutable state of a DataSourceMemory: total byte count and current
position. -/
structure MemSource where
  count : Nat
  position : Nat
  deriving DecidableEq, Repr

/-- DataSourceMemory::ReadData (datasource.cpp lines 74-93): with no bytes
remaining report Error with data size zero; when the buffer capacity covers
the remainder deliver exactly the remaining bytes and report EndOfFile;
otherwise deliver a full buffer and report ContinueRead.  Returns the
updated source, the status and the data size set on the buffer. -/
def readData (bufSize : Nat) (s : MemSource) : MemSource × ReadStatus × Nat :=
  let remaining := s.count - s.position
  if remaining = 0 then (s, ReadStatus.errorRead, 0)
  else if bufSize ≥ remaining then
    ({ s with position := s.position + remaining }, ReadStatus.endOfFile, remaining)
  else
    ({ s with position := s.position + bufSize }, ReadStatus.continueRead, bufSize)

/-- Iterated reads: the source state after k further ReadData calls. -/
def readIter (bufSize : Nat) : Nat → MemSource → MemSource
  | 0, s => s
  | k + 1, s => readIter bufSize k (readData bufSize s).1

/-- C10: a DataSourceMemory with zero remaining bytes answers this and every
subsequent ReadData call with Error and data size zero (never EndOfFile),
leaving its state unchanged; the call that consumes the final bytes returns
EndOfFile with exactly the remaining byte count and advances the position to
the end; every earlier call returns ContinueRead with a full buffer. -/
theorem C10_theorem (bufSize : Nat) (s : MemSource) (hpc : s.position ≤ s.count) :
    (s.count - s.position = 0 →
      (∀ k, readIter bufSize k s = s) ∧
      readData bufSize s = (s, ReadStatus.errorRead, 0)) ∧
    (0 < s.count - s.position → s.count - s.position ≤ bufSize →
      readData bufSize s =
        ({ s with position := s.count }, ReadStatus.endOfFile, s.count - s.position)) ∧
    (bufSize < s.count - s.position →
      readData bufSize s =
        ({ s with position := s.position + bufSize }, ReadStatus.continueRead, bufSize)) := by
  refine ⟨fun h0 => ⟨?_, ?_⟩, fun hpos hle => ?_, fun hlt => ?_⟩
  · intro k
    induction k with
    | zero => rfl
    | succ k ih =>
        show readIter bufSize k (readData bufSize s).1 = s
        simp only [readData, h0, if_pos rfl]
        exact ih
  · simp [readData, h0]
  · have hrem : s.count - s.position ≠ 0 := by omega
    simp only [readData, hrem, if_false, if_pos hle]
    have : s.position + (s.count - s.position) = s.count := by omega
    rw [this]
  · have hrem : s.count - s.position ≠ 0 := by omega
    have hge : ¬ bufSize ≥ s.count - s.position := by omega
    simp [readData, hrem, hge]

/-- C10 witness: the theorem applied to a source of 5 bytes at position 3
with an 8-byte buffer (the final-read branch applies). -/
theorem C10_witness :
    (3 : Nat) ≤ 5 ∧
    ((MemSource.mk 5 3).count - (MemSource.mk 5 3).position = 0 →
      (∀ k, readIter 8 k (MemSource.mk 5 3) = MemSource.mk 5 3) ∧
      readData 8 (MemSource.mk 5 3) = (MemSource.mk 5 3, ReadStatus.errorRead, 0)) ∧
    (0 < (MemSource.mk 5 3).count - (MemSource.mk 5 3).position →
      (MemSource.mk 5 3).count - (MemSource.mk 5 3).position ≤ 8 →
      readData 8 (MemSource.mk 5 3) =
        ({ MemSource.mk 5 3 with position := 5 }, ReadStatus.endOfFile,
          (MemSource.mk 5 3).count - (MemSource.mk 5 3).position)) ∧
    (8 < (MemSource.mk 5 3).count - (MemSource.mk 5 3).position →
      readData 8 (MemSource.mk 5 3) =
        ({ MemSource.mk 5 3 with position := (MemSource.mk 5 3).position + 8 },
          ReadStatus.continueRead, 8)) :=
  ⟨by decide, C10_theorem 8 (MemSource.mk 5 3) (by decide)⟩

/-! ### Pipeline terminal states (Convert, parser.cpp lines 2030-2231)

The driver starts with result status kError and fit_status
FIT_CONVERT_CONTINUE, pulls chunks from the source while the status stays
CONTINUE, appends the per-chunk output to the write buffer, and finalizes:
only a terminal FIT_CONVERT_END_OF_FILE switches the result to kSuccess and
moves the accumulated buffer into the result; every other terminal status
(decode error, data type not supported, protocol version not supported, or
CONTINUE when the source ends prematurely) leaves the kError status and the
default-constructed empty output buffer.  The decode source is the black-box
FIT SDK; it is modelled as the list of chunk outcomes it produces: the text
appended while messages were available, and the status that ended the
chunk. -/

/-- FIT_CONVERT_RETURN values relevant to the driver. -/
inductive FitStatus where
  | convertContinue
  | endOfFile
  | errorDecode
  | dataTypeNotSupported
  | protocolVersionNotSupported
  deriving DecidableEq, Repr

/-- ParseResult from parser.h. -/
inductive ParseResult where
  | success
  | error
  deriving DecidableEq, Repr

/-- The read/decode loop (parser.cpp lines 2080-2156): while the status is
CONTINUE and the source delivers a chunk, process it (appending its output)
and adopt the status its decoding ended with; the loop stops on the first
terminal status or when the source is exhausted (read error or empty
read). -/
def runLoop : FitStatus → List Char → List (List Char × FitStatus) → FitStatus × List Char
  | status, buf, [] => (status, buf)
  | status, buf, (out, st1) :: rest =>
      if status = FitStatus.convertContinue then runLoop st1 (buf ++ out) rest
      else (status, buf)

/-- The first terminal (non-CONTINUE) status among the chunk outcomes, or
CONTINUE when the source ends without one (premature end of input). -/
def firstTerminal : List (List Char × FitStatus) → FitStatus
  | [] => FitStatus.convertContinue
  | (_, st1) :: rest =>
      if st1 = FitStatus.convertContinue then firstTerminal rest else st1

/-- The finalization dispatch (parser.cpp lines 2158-2227): END_OF_FILE
yields kSuccess and moves the buffer into the result; anything else leaves
the initial kError and the default-constructed (empty) result buffer. -/
def convertFinalize (res : FitStatus × List Char) : ParseResult × List Char :=
  if res.1 = FitStatus.endOfFile then (ParseResult.success, res.2)
  else (ParseResult.error, [])

/-- The whole conversion call over the source's chunk outcomes. -/
def convertModel (chunks : List (List Char × FitStatus)) : ParseResult × List Char :=
  convertFinalize (runLoop FitStatus.convertContinue [] chunks)

theorem runLoop_status (chunks : List (List Char × FitStatus)) (buf : List Char) :
    (runLoop FitStatus.convertContinue buf chunks).1 = firstTerminal chunks := by
  induction chunks generalizing buf with
  | nil => rfl
  | cons c rest ih =>
      obtain ⟨out, st1⟩ := c
      show (runLoop st1 (buf ++ out) rest).1 = _
      by_cases h1 : st1 = FitStatus.convertContinue
      · subst h1
        simp only [firstTerminal, if_pos rfl]
        exact ih (buf ++ out)
      · cases rest with
        | nil => simp [runLoop, firstTerminal, h1]
        | cons d rest2 =>
            obtain ⟨out2, st2⟩ := d
            simp [runLoop, firstTerminal, h1]

/-- C8: the conversion reaches kSuccess exactly when the first terminal
signal of the decode source is a clean END_OF_FILE; on a decode error,
unsupported data format, unsupported protocol version, or premature end
without any terminal signal, the result keeps the kError status and an empty
output buffer even though output had been accumulated during the run. -/
theorem C8_theorem (chunks : List (List Char × FitStatus)) :
    ((convertModel chunks).1 = ParseResult.success ↔
      firstTerminal chunks = FitStatus.endOfFile) ∧
    convertModel chunks =
      (if firstTerminal chunks = FitStatus.endOfFile then
        (ParseResult.success, (runLoop FitStatus.convertContinue [] chunks).2)
      else (ParseResult.error, [])) := by
  have hst := runLoop_status chunks []
  constructor
  · unfold convertModel convertFinalize
    rw [hst]
    split
    · next h => simp [h]
    · next h => simp [h]
  · unfold convertModel convertFinalize
    rw [hst]

/-! ### Truncating numeric-to-text renderer (NumberToStringPrecision,
parser.cpp lines 916-934)

The source converts the int64 raw value to double, divides by the double
divider, renders the quotient with std::to_string (fixed notation, exactly
six decimal places), truncates the string to total_symbols characters,
truncates trailing decimals beyond dot_limit, and strips a bare trailing
dot.  The binary floating division and its fixed six-decimal rendering are
modelled exactly over the rational value number/divider, rounded half-up to
six decimals (the double computation agrees except possibly in the sixth
decimal's last ulp, and all string-level behaviour below is independent of
the rendered digits). -/

/-- Decimal digit rendering with explicit fuel (n+1 is always enough since a
number has at most n+1 digits); structural recursion keeps it kernel
reducible. -/
def natDigitsAux : Nat → Nat → List Char
  | 0, _ => []
  | fuel + 1, n =>
      if n < 10 then [digitChar n]
      else natDigitsAux fuel (n / 10) ++ [digitChar (n % 10)]

/-- Decimal digit string of a natural number, most significant digit
first. -/
def natDigits (n : Nat) : List Char := natDigitsAux (n + 1) n

/-- Left-pad a digit string with zeros to the six fractional places that
std::to_string always prints. -/
def padTo6 (ds : List Char) : List Char := List.replicate (6 - ds.length) '0' ++ ds

/-- The value n/10^6 rendered in fixed notation with exactly six decimal
places, as std::to_string renders a double. -/
def renderScaled (scaled : Int) : List Char :=
  (if scaled < 0 then ['-'] else []) ++ natDigits (scaled.natAbs / 1000000) ++
    ['.'] ++ padTo6 (natDigits (scaled.natAbs % 1000000))

/-- The quotient a/b (b positive) scaled to six decimals and rounded half-up:
floor(a/b * 10^6 + 1/2) computed with integer arithmetic. -/
def scaled6 (a b : Int) : Int := Int.ediv (2 * a * 1000000 + b) (2 * b)

/-- Model of std::to_string(double(a)/double(b)). -/
def toString6OfFrac (a b : Int) : List Char := renderScaled (scaled6 a b)

/-- std::string::find of the dot: index of the first '.', or the string
length when absent (the not-found case of the source compares against npos;
index-equals-length is an equivalent encoding). -/
def dotIdx : List Char → Nat
  | [] => 0
  | c :: cs => if c = '.' then 0 else dotIdx cs + 1

/-- The decimal-limit truncation step of NumberToStringPrecision: when a dot
was found and more than dot_limit characters follow it, cut the string right
after dot_limit decimals. -/
def truncDot (limit : Nat) (s : List Char) : List Char :=
  if dotIdx s ≠ s.length ∧ s.length - dotIdx s > limit + 1 then
    s.take (dotIdx s + limit + 1)
  else s

/-- The final step of NumberToStringPrecision: drop a bare trailing dot. -/
def stripDot (s : List Char) : List Char :=
  if s ≠ [] ∧ s.getLast? = some '.' then s.dropLast else s

/-- The three string-level stages of NumberToStringPrecision: truncate to
total_symbols, truncate decimals beyond dot_limit, strip a trailing dot. -/
def truncChain (total limit : Nat) (s0 : List Char) : List Char :=
  stripDot (truncDot limit (s0.take total))

/-- NumberToStringPrecision (parser.cpp lines 916-934): render
number/divider with six fixed decimals, then apply the truncation chain.
The double quotient is modelled by the exact rational number/divider, whose
numerator and denominator are number*divider.den and divider.num. -/
def numberToStringPrecision (number : Int) (divider : ℚ) (total limit : Nat) :
    List Char :=
  truncChain total limit
    (toString6OfFrac (number * (divider.den : Int)) divider.num)

theorem digitChar_ne_dot (k : Nat) (h : k < 10) : digitChar k ≠ '.' := by
  interval_cases k <;> decide

theorem dot_not_mem_natDigitsAux (fuel n : Nat) : '.' ∉ natDigitsAux fuel n := by
  induction fuel generalizing n with
  | zero => simp [natDigitsAux]
  | succ fuel ih =>
      unfold natDigitsAux
      split
      · next h =>
          simp only [List.mem_singleton]
          exact fun hc => digitChar_ne_dot n h hc.symm
      · intro hmem
        rcases List.mem_append.mp hmem with h1 | h1
        · exact ih (n / 10) h1
        · exact digitChar_ne_dot (n % 10) (by omega) (List.mem_singleton.mp h1).symm

theorem dot_not_mem_natDigits (n : Nat) : '.' ∉ natDigits n :=
  dot_not_mem_natDigitsAux (n + 1) n

theorem count_dot_renderScaled (scaled : Int) :
    (renderScaled scaled).count '.' = 1 := by
  have h1 : ('.' : Char) ∉ natDigits (scaled.natAbs / 1000000) :=
    dot_not_mem_natDigits _
  have h2 : ('.' : Char) ∉ padTo6 (natDigits (scaled.natAbs % 1000000)) := by
    intro hmem
    rcases List.mem_append.mp hmem with h3 | h3
    · exact (by decide : ('.' : Char) ≠ '0') (List.eq_of_mem_replicate h3)
    · exact dot_not_mem_natDigits _ h3
  unfold renderScaled
  rw [List.count_append, List.count_append, List.count_append]
  rw [List.count_eq_zero.mpr h1, List.count_eq_zero.mpr h2]
  split <;> simp

theorem dotIdx_le_length (s : List Char) : dotIdx s ≤ s.length := by
  induction s with
  | nil => simp [dotIdx]
  | cons c cs ih =>
      unfold dotIdx
      split
      · simp
      · simpa using ih

theorem getD_lt_dotIdx (s : List Char) (j : Nat) (hj : j < dotIdx s) :
    s.getD j ' ' ≠ '.' := by
  induction s generalizing j with
  | nil => simp [dotIdx] at hj
  | cons c cs ih =>
      unfold dotIdx at hj
      split at hj
      · omega
      · next hc =>
          cases j with
          | zero => simpa [List.getD] using hc
          | succ j => exact ih j (by omega)

theorem truncDot_sublist (limit : Nat) (s : List Char) :
    (truncDot limit s).Sublist s := by
  unfold truncDot
  split
  · exact List.take_sublist _ _
  · exact List.Sublist.refl s

theorem stripDot_sublist (s : List Char) : (stripDot s).Sublist s := by
  unfold stripDot
  split
  · exact List.dropLast_sublist s
  · exact List.Sublist.refl s

theorem truncChain_length_le (total limit : Nat) (s0 : List Char) :
    (truncChain total limit s0).length ≤ total := by
  have h1 := (stripDot_sublist (truncDot limit (s0.take total))).length_le
  have h2 := (truncDot_sublist limit (s0.take total)).length_le
  have h3 : (s0.take total).length ≤ total := List.length_take_le total s0
  unfold truncChain
  omega

theorem stripDot_getLast (s : List Char) (h : s.count '.' ≤ 1) :
    (stripDot s).getLast? ≠ some '.' := by
  unfold stripDot
  by_cases hc : s ≠ [] ∧ s.getLast? = some '.'
  · rw [if_pos hc]
    obtain ⟨hne, hlast⟩ := hc
    have hmem : '.' ∈ s.getLast? := by simp [hlast]
    have hsplit : s.dropLast ++ ['.'] = s := List.dropLast_append_getLast? '.' hmem
    have hcount : s.dropLast.count '.' = 0 := by
      have hc2 := congrArg (List.count ('.' : Char)) hsplit
      simp only [List.count_append, List.count_singleton,
        show (('.' : Char) == '.') = true from rfl, if_true] at hc2
      omega
    intro hbad
    have hmem2 : '.' ∈ s.dropLast.getLast? := by simp [hbad]
    have hsplit2 := List.dropLast_append_getLast? '.' hmem2
    have hmem3 : '.' ∈ s.dropLast := by
      rw [← hsplit2]
      simp
    exact List.count_eq_zero.mp hcount hmem3
  · rw [if_neg hc]
    intro hbad
    by_cases hnil : s = []
    · subst hnil
      simp at hbad
    · exact hc ⟨hnil, hbad⟩

theorem getD_take (s : List Char) (m j : Nat) (hj : j < m) :
    (s.take m).getD j ' ' = s.getD j ' ' := by
  simp [List.getD, List.getElem?_take_of_lt hj]

theorem truncDot_decimals (limit : Nat) (s : List Char) (j : Nat)
    (hj : j < (truncDot limit s).length)
    (hdot : (truncDot limit s).getD j ' ' = '.') :
    (truncDot limit s).length - j - 1 ≤ limit := by
  have hple : dotIdx s ≤ s.length := dotIdx_le_length s
  unfold truncDot at hj hdot ⊢
  by_cases hc : dotIdx s ≠ s.length ∧ s.length - dotIdx s > limit + 1
  · rw [if_pos hc] at hj hdot ⊢
    have hlen : (s.take (dotIdx s + limit + 1)).length = dotIdx s + limit + 1 := by
      rw [List.length_take]
      omega
    rw [hlen] at hj ⊢
    rw [getD_take s _ j (by omega)] at hdot
    have hge : ¬ j < dotIdx s := fun hlt => getD_lt_dotIdx s j hlt hdot
    omega
  · rw [if_neg hc] at hj hdot ⊢
    have hge : ¬ j < dotIdx s := fun hlt => getD_lt_dotIdx s j hlt hdot
    omega

theorem stripDot_decimals (s : List Char) (limit : Nat)
    (hs : ∀ j, j < s.length → s.getD j ' ' = '.' → s.length - j - 1 ≤ limit)
    (j : Nat) (hj : j < (stripDot s).length)
    (hdot : (stripDot s).getD j ' ' = '.') :
    (stripDot s).length - j - 1 ≤ limit := by
  unfold stripDot at hj hdot ⊢
  by_cases hc : s ≠ [] ∧ s.getLast? = some '.'
  · rw [if_pos hc] at hj hdot ⊢
    have hlen : s.dropLast.length = s.length - 1 := List.length_dropLast s
    rw [List.dropLast_eq_take] at hdot
    rw [getD_take s _ j (by omega)] at hdot
    have := hs j (by omega) hdot
    omega
  · rw [if_neg hc] at hj hdot ⊢
    exact hs j hj hdot

/-- C6: for every (rawInteger, divider, totalWidth, decimalBudget) the
truncating renderer returns at most totalWidth characters, never ends in a
bare dot, never keeps more than decimalBudget digits after the dot, and in
particular renders (123456, 100000.0, 5, 2) as 1.23 and
(1234567890, 100000.0, 5, 2) as 12345 — matching the repository's own unit
tests of NumberToStringPrecision. -/
theorem C6_theorem (number : Int) (divider : ℚ) (total limit : Nat) :
    (numberToStringPrecision number divider total limit).length ≤ total ∧
    (numberToStringPrecision number divider total limit).getLast? ≠ some '.' ∧
    (∀ j, j < (numberToStringPrecision number divider total limit).length →
      (numberToStringPrecision number divider total limit).getD j ' ' = '.' →
      (numberToStringPrecision number divider total limit).length - j - 1 ≤ limit) ∧
    numberToStringPrecision 123456 100000 5 2 = "1.23".toList ∧
    numberToStringPrecision 1234567890 100000 5 2 = "12345".toList := by
  refine ⟨truncChain_length_le total limit _, ?_, ?_, by decide, by decide⟩
  · show (stripDot (truncDot limit _)).getLast? ≠ some '.'
    apply stripDot_getLast
    have h1 : (truncDot limit ((toString6OfFrac (number * (divider.den : Int))
        divider.num).take total)).count '.' ≤
        (toString6OfFrac (number * (divider.den : Int)) divider.num).count '.' :=
      ((truncDot_sublist limit _).trans (List.take_sublist _ _)).count_le '.'
    have h2 : (toString6OfFrac (number * (divider.den : Int)) divider.num).count '.' = 1 :=
      count_dot_renderScaled _
    omega
  · intro j hj hdot
    exact stripDot_decimals _ limit (fun k hk hd => truncDot_decimals limit _ k hk hd)
      j hj hdot

/-- C6 witness: the renderer theorem applied at the first tested input. -/
theorem C6_witness :
    (numberToStringPrecision 123456 100000 5 2).length ≤ 5 ∧
    (numberToStringPrecision 123456 100000 5 2).getLast? ≠ some '.' ∧
    (∀ j, j < (numberToStringPrecision 123456 100000 5 2).length →
      (numberToStringPrecision 123456 100000 5 2).getD j ' ' = '.' →
      (numberToStringPrecision 123456 100000 5 2).length - j - 1 ≤ 2) ∧
    numberToStringPrecision 123456 100000 5 2 = "1.23".toList ∧
    numberToStringPrecision 1234567890 100000 5 2 = "12345".toList :=
  C6_theorem 123456 100000 5 2

end FitConv
